import Mathlib

/-!
# MetalTensorHarness bridging header

The repository consists of one file, `MetalTensorHarness-Bridging-Header.h`:

     8 | #ifndef MetalTensorHarness_Bridging_Header_h
     9 | #define MetalTensorHarness_Bridging_Header_h
    10 |
    11 | // Import llama.cpp headers
    12 | #import <llama/llama.h>
    13 | #import <llama/ggml.h>
    14 |
    15 | #endif /* MetalTensorHarness_Bridging_Header_h */

(lines 1 to 6 are a comment block, line 7 is blank).

The file is embedded line by line (`bridgingHeader`) and given meaning by a small
model of the C / Objective-C preprocessor (`step`, `runFile`): a macro table, the
declarations visible so far, the files already entered (the bookkeeping behind the
once-only `#import`), the look-ups the files being run send to the include search
path, the diagnostics raised, and whether a fatal error ended preprocessing.  The two
llama.cpp headers are not part of the repository; the search path that resolves them,
and with it their contents, is a parameter of every definition and theorem.
-/

namespace MetalTensorHarness

/-! ## Data model -/

/-- Kinds of declaration a C header can make visible. -/
inductive DeclKind where
  | type
  | function
  | variable
  deriving DecidableEq, Repr

/-- One public declaration: its kind and its name. -/
structure Decl where
  kind : DeclKind
  name : String
  deriving DecidableEq, Repr

/-- Diagnostics the preprocessor can raise. -/
inductive Diag where
  | fileNotFound (path : String)
  | redefined (name : String)
  | endifWithoutIf
  | unterminatedConditional
  | userError (msg : String)
  deriving DecidableEq, Repr

/-- What the preprocessor meets, in order, when it enters an external header, with the
header's own conditionals evaluated and its resolved nested includes expanded in place:
a macro definition, a declaration, an `#error`, or a nested include whose path does not
resolve. Lines that undefine a macro are not represented. -/
inductive Item where
  | define (name : String) (body : String)
  | decl (d : Decl)
  | error (msg : String)
  | missing (path : String)
  deriving DecidableEq, Repr

/-- An external header: the file a path resolves to and its contents. -/
structure Header where
  file : String
  items : List Item
  deriving DecidableEq, Repr

/-- The include search path of the host build: resolves the path of an angled
include to a header, or fails. Different spellings may resolve to the same file. -/
abbrev SearchPath := String → Option Header

/-- State of the preprocessor inside one translation unit. -/
structure PPState where
  /-- table of macro names and replacement texts, most recent first -/
  table : List (String × String)
  /-- declarations visible so far, oldest first -/
  decls : List Decl
  /-- files already entered in this translation unit -/
  entered : List String
  /-- look-ups sent to the include search path by the lines run, oldest first -/
  requests : List String
  /-- diagnostics raised, oldest first -/
  diags : List Diag
  /-- whether a fatal error ended preprocessing -/
  fatal : Bool
  deriving DecidableEq, Repr

/-- State at the start of a translation unit. -/
def PPState.initial : PPState :=
  { table := [], decls := [], entered := [], requests := [], diags := [], fatal := false }

/-- One logical line of a source file, as the preprocessor classifies it. -/
inductive Line where
  | blank
  | comment (text : String)
  | ifndef (name : String)
  | ifdef (name : String)
  | endif
  | define (name : String) (body : String)
  | undef (name : String)
  | includeAngled (path : String)
  | importAngled (path : String)
  | error (msg : String)
  | decl (d : Decl)
  deriving DecidableEq, Repr

/-! ## The source file -/

/-- Name of the include guard. -/
def MetalTensorHarness_Bridging_Header_h : String := "MetalTensorHarness_Bridging_Header_h"

/-- Path of the first import. -/
def llamaPath : String := "llama/llama.h"

/-- Path of the second import. -/
def ggmlPath : String := "llama/ggml.h"

/-- The file `MetalTensorHarness/MetalTensorHarness-Bridging-Header.h`, one entry per
line of the file (15 lines; the comment trailing `#endif` is dropped). -/
def bridgingHeader : List Line :=
  [ Line.comment "",
    Line.comment "  MetalTensorHarness-Bridging-Header.h",
    Line.comment "  MetalTensorHarness",
    Line.comment "",
    Line.comment "  Bridging header for llama.cpp C/C++ APIs",
    Line.comment "",
    Line.blank,
    Line.ifndef MetalTensorHarness_Bridging_Header_h,
    Line.define MetalTensorHarness_Bridging_Header_h "",
    Line.blank,
    Line.comment " Import llama.cpp headers",
    Line.importAngled llamaPath,
    Line.importAngled ggmlPath,
    Line.blank,
    Line.endif ]

/-! ## Preprocessor semantics -/

/-- Whether a macro name is defined in a macro table. -/
def definedIn (tbl : List (String × String)) (n : String) : Bool :=
  (tbl.lookup n).isSome

/-- Whether a macro name is defined in a state. -/
def PPState.isDefined (st : PPState) (n : String) : Bool :=
  definedIn st.table n

/-- Remove every definition of a name from a macro table. -/
def dropDef (n : String) (tbl : List (String × String)) : List (String × String) :=
  tbl.filter (fun p => p.1 != n)

/-- Bind a name in a macro table, replacing an earlier binding. -/
def bindDef (tbl : List (String × String)) (p : String × String) : List (String × String) :=
  p :: dropDef p.1 tbl

/-- Append one diagnostic. -/
def PPState.raise (st : PPState) (d : Diag) : PPState :=
  { st with diags := st.diags ++ [d] }

/-- Append one diagnostic and end preprocessing. -/
def PPState.abort (st : PPState) (d : Diag) : PPState :=
  { st with diags := st.diags ++ [d], fatal := true }

/-- `#define n b`: a new name is added; an identical redefinition is accepted
silently; a different one is diagnosed and replaces the old binding. -/
def doDefine (n b : String) (st : PPState) : PPState :=
  match st.table.lookup n with
  | none => { st with table := (n, b) :: st.table }
  | some old =>
    if old = b then st
    else { st with table := bindDef st.table (n, b), diags := st.diags ++ [Diag.redefined n] }

/-- `#undef n`. -/
def doUndef (n : String) (st : PPState) : PPState :=
  { st with table := dropDef n st.table }

/-- Effect of one item of an external header: a definition goes through `doDefine`, a
declaration becomes visible, an `#error` is diagnosed, an unresolved nested include is
a fatal error. -/
def applyItem (it : Item) (st : PPState) : PPState :=
  match it with
  | Item.define n b => doDefine n b st
  | Item.decl d => { st with decls := st.decls ++ [d] }
  | Item.error m => st.raise (Diag.userError m)
  | Item.missing p => st.abort (Diag.fileNotFound p)

/-- One item of an external header; nothing is processed after a fatal error. -/
def runItem (st : PPState) (it : Item) : PPState :=
  if st.fatal then st else applyItem it st

/-- The contents of an external header, in order. -/
def runItems (items : List Item) (st : PPState) : PPState :=
  items.foldl runItem st

/-- Enter a resolved header: its file is recorded as entered and its contents are
processed. -/
def enterHeader (h : Header) (st : PPState) : PPState :=
  runItems h.items
    { st with entered := if h.file ∈ st.entered then st.entered else st.entered ++ [h.file] }

/-- `#include <path>` (`once = false`) and `#import <path>` (`once = true`): the path
is looked up on the search path; an unresolved path is a fatal error; `#import` does
not enter a file that was entered before, under whatever spelling. -/
def doInclude (once : Bool) (env : SearchPath) (path : String) (st : PPState) : PPState :=
  let st1 := { st with requests := st.requests ++ [path] }
  match env path with
  | none => st1.abort (Diag.fileNotFound path)
  | some h =>
    if once && decide (h.file ∈ st1.entered) then st1
    else enterHeader h st1

/-- `#import <path>`. -/
def doImport (env : SearchPath) (path : String) (st : PPState) : PPState :=
  doInclude true env path st

/-- An `#import <path>` line in an active group: nothing is processed after a fatal
error. -/
def importLine (env : SearchPath) (path : String) (st : PPState) : PPState :=
  if st.fatal then st else doImport env path st

/-- Whether the lines at the current nesting of conditionals are processed. Each
entry of the stack already accounts for the groups around it. -/
def isActive (cs : List Bool) : Bool := cs.headD true

/-- Process one line. The first component is the stack of open conditional groups.
Nothing is processed after a fatal error. -/
def step (env : SearchPath) (c : List Bool × PPState) (l : Line) : List Bool × PPState :=
  if c.2.fatal then c else
  match l with
  | Line.blank => c
  | Line.comment _ => c
  | Line.ifndef n => ((isActive c.1 && !c.2.isDefined n) :: c.1, c.2)
  | Line.ifdef n => ((isActive c.1 && c.2.isDefined n) :: c.1, c.2)
  | Line.endif =>
    match c.1 with
    | [] => ([], c.2.raise Diag.endifWithoutIf)
    | _ :: rest => (rest, c.2)
  | Line.define n b => if isActive c.1 then (c.1, doDefine n b c.2) else c
  | Line.undef n => if isActive c.1 then (c.1, doUndef n c.2) else c
  | Line.includeAngled p => if isActive c.1 then (c.1, doInclude false env p c.2) else c
  | Line.importAngled p => if isActive c.1 then (c.1, doInclude true env p c.2) else c
  | Line.error m => if isActive c.1 then (c.1, c.2.raise (Diag.userError m)) else c
  | Line.decl d => if isActive c.1 then (c.1, { c.2 with decls := c.2.decls ++ [d] }) else c

/-- Process a whole file from a given state; unless a fatal error ended preprocessing,
a conditional group still open at the end of the file is diagnosed. -/
def runFile (env : SearchPath) (ls : List Line) (st : PPState) : PPState :=
  let r := ls.foldl (step env) ([], st)
  if r.2.fatal || r.1.isEmpty then r.2 else r.2.raise Diag.unterminatedConditional

/-- Including the bridging header at a point of a translation unit where the
preprocessor state is `st`. -/
def includeBridgingHeader (env : SearchPath) (st : PPState) : PPState :=
  runFile env bridgingHeader st

/-- Diagnostics raised during one inclusion of the bridging header. -/
def diagsRaised (env : SearchPath) (st : PPState) : List Diag :=
  (includeBridgingHeader env st).diags.drop st.diags.length

/-- Look-ups sent to the search path during one inclusion of the bridging header. -/
def requestsMade (env : SearchPath) (st : PPState) : List String :=
  (includeBridgingHeader env st).requests.drop st.requests.length

/-- Declarations among the contents of a header. -/
def declsOf (items : List Item) : List Decl :=
  items.filterMap fun it => match it with
    | Item.decl d => some d
    | _ => none

/-- Macro names among the contents of a header. -/
def namesOf (items : List Item) : List String :=
  items.filterMap fun it => match it with
    | Item.define n _ => some n
    | _ => none

/-- Macro definitions among the contents of a header. -/
def defsOf (items : List Item) : List (String × String) :=
  items.filterMap fun it => match it with
    | Item.define n b => some (n, b)
    | _ => none

/-- Diagnostics the contents of a header can raise: a redefinition for each of its
macros, its `#error`s, and its unresolved nested includes. -/
def raisableOf (items : List Item) : List Diag :=
  items.filterMap fun it => match it with
    | Item.define n _ => some (Diag.redefined n)
    | Item.decl _ => none
    | Item.error m => some (Diag.userError m)
    | Item.missing p => some (Diag.fileNotFound p)

/-- Whether an item is an unresolved nested include. -/
def Item.isMissing (it : Item) : Bool :=
  match it with
  | Item.missing _ => true
  | _ => false

/-- Whether an item is an `#error` or an unresolved nested include. -/
def Item.isFailure (it : Item) : Bool :=
  match it with
  | Item.error _ => true
  | Item.missing _ => true
  | _ => false

/-- Public declarations of a header. -/
def Header.decls (h : Header) : List Decl := declsOf h.items

/-- Names of the macros a header defines. -/
def Header.names (h : Header) : List String := namesOf h.items

/-- Macro definitions of a header. -/
def Header.defs (h : Header) : List (String × String) := defsOf h.items

/-- Diagnostics the contents of a header can raise. -/
def Header.raisable (h : Header) : List Diag := raisableOf h.items

/-- Whether the contents of a header hold an unresolved nested include. -/
def Header.halts (h : Header) : Bool := h.items.any Item.isMissing

/-- Whether the contents of a header hold an `#error` or an unresolved nested include. -/
def Header.fails (h : Header) : Bool := h.items.any Item.isFailure

/-- Every macro of `defs` is unbound in the table or bound to the same replacement. -/
def Agrees (tbl : List (String × String)) (defs : List (String × String)) : Prop :=
  ∀ p ∈ defs, tbl.lookup p.1 = none ∨ tbl.lookup p.1 = some p.2

instance (tbl defs : List (String × String)) : Decidable (Agrees tbl defs) := by
  unfold Agrees
  infer_instance

/-- No macro name is given two different replacements in `defs`. -/
def Functional (defs : List (String × String)) : Prop :=
  ∀ p ∈ defs, ∀ q ∈ defs, p.1 = q.1 → p.2 = q.2

instance (defs : List (String × String)) : Decidable (Functional defs) := by
  unfold Functional
  infer_instance

/-- Names of the macros a file defines in its own text. -/
def ownDefines (ls : List Line) : List String :=
  ls.filterMap fun l => match l with
    | Line.define n _ => some n
    | _ => none

/-- Declarations a file makes in its own text. -/
def ownDecls (ls : List Line) : List Decl :=
  ls.filterMap fun l => match l with
    | Line.decl d => some d
    | _ => none

/-- Paths a file asks for in its own text, in order. -/
def ownIncludes (ls : List Line) : List String :=
  ls.filterMap fun l => match l with
    | Line.includeAngled p => some p
    | Line.importAngled p => some p
    | _ => none

/-- Every public symbol of a header is visible in a state: each declaration is among
the visible declarations and each macro name is defined. -/
def AllVisible (h : Header) (st : PPState) : Prop :=
  (∀ d ∈ h.decls, d ∈ st.decls) ∧ (∀ n ∈ h.names, st.isDefined n = true)

instance (h : Header) (st : PPState) : Decidable (AllVisible h st) := by
  unfold AllVisible
  infer_instance

/-! ## Sample inputs -/

/-- A header standing for `llama/llama.h` with three of its public symbols. -/
def sampleLlama : Header :=
  { file := "/usr/local/include/llama/llama.h"
    items := [Item.define "LLAMA_DEFAULT_SEED" "0xFFFFFFFF",
              Item.decl { kind := DeclKind.type, name := "llama_model" },
              Item.decl { kind := DeclKind.function, name := "llama_n_ctx" }] }

/-- A header standing for `llama/ggml.h` with two of its public symbols. -/
def sampleGgml : Header :=
  { file := "/usr/local/include/llama/ggml.h"
    items := [Item.define "GGML_MAX_DIMS" "4",
              Item.decl { kind := DeclKind.type, name := "ggml_tensor" }] }

/-- A header standing for a `llama/llama.h` whose own include of `ggml-backend.h` does
not resolve. -/
def brokenLlama : Header :=
  { file := "/usr/local/include/llama/llama.h"
    items := [Item.missing "ggml-backend.h",
              Item.decl { kind := DeclKind.type, name := "llama_model" }] }

/-- A search path on which both imports resolve; `llama/./llama.h` is a second
spelling of `llama/llama.h`. -/
def sampleSearchPath : SearchPath := fun p =>
  if p = "llama/llama.h" ∨ p = "llama/./llama.h" then some sampleLlama
  else if p = "llama/ggml.h" then some sampleGgml
  else none

/-- A search path on which both imports resolve and `llama/llama.h` is broken inside. -/
def brokenSearchPath : SearchPath := fun p =>
  if p = "llama/llama.h" then some brokenLlama
  else if p = "llama/ggml.h" then some sampleGgml
  else none

/-- A search path on which only `llama/ggml.h` resolves. -/
def ggmlOnlySearchPath : SearchPath := fun p =>
  if p = "llama/ggml.h" then some sampleGgml else none

/-- A search path on which nothing resolves. -/
def emptySearchPath : SearchPath := fun _ => none

/-- State of a translation unit that, before including the bridging header, defined
the guard name itself with the line `#define MetalTensorHarness_Bridging_Header_h 1`. -/
def guardPredefined (env : SearchPath) : PPState :=
  runFile env [Line.define MetalTensorHarness_Bridging_Header_h "1"] PPState.initial

/-- State of a translation unit that, before including the bridging header, imported
`llama/llama.h` itself under another spelling and then undefined one of its macros. -/
def llamaImportedThenUndef (env : SearchPath) : PPState :=
  runFile env [Line.importAngled "llama/./llama.h", Line.undef "LLAMA_DEFAULT_SEED"]
    PPState.initial

/-- State of a translation unit that, before including the bridging header, defined
`GGML_MAX_DIMS` itself with the line `#define GGML_MAX_DIMS 8`. -/
def ggmlMaxDimsPredefined (env : SearchPath) : PPState :=
  runFile env [Line.define "GGML_MAX_DIMS" "8"] PPState.initial

/-! ## Basic facts -/

theorem include_of_fatal (env : SearchPath) (st : PPState) (h : st.fatal = true) :
    includeBridgingHeader env st = st := by
  simp [includeBridgingHeader, runFile, bridgingHeader, step, h]

theorem include_of_defined (env : SearchPath) (st : PPState)
    (h : st.isDefined MetalTensorHarness_Bridging_Header_h = true) :
    includeBridgingHeader env st = st := by
  cases hf : st.fatal with
  | true => exact include_of_fatal env st hf
  | false => simp [includeBridgingHeader, runFile, bridgingHeader, step, isActive, h, hf]

theorem step_comment (env : SearchPath) (c : List Bool × PPState) (t : String) :
    step env c (Line.comment t) = c := by
  unfold step
  split <;> rfl

theorem step_blank (env : SearchPath) (c : List Bool × PPState) :
    step env c Line.blank = c := by
  unfold step
  split <;> rfl

theorem step_ifndef (env : SearchPath) (st : PPState) (n : String)
    (hf : st.fatal = false) (h : st.isDefined n = false) :
    step env ([], st) (Line.ifndef n) = ([true], st) := by
  simp [step, hf, h, isActive]

theorem step_define (env : SearchPath) (st : PPState) (n b : String)
    (hf : st.fatal = false) :
    step env ([true], st) (Line.define n b) = ([true], doDefine n b st) := by
  simp [step, hf, isActive]

theorem step_import (env : SearchPath) (st : PPState) (p : String) :
    step env ([true], st) (Line.importAngled p) = ([true], importLine env p st) := by
  unfold step importLine doImport
  cases st.fatal <;> simp [isActive]

theorem step_endif (env : SearchPath) (st : PPState) :
    step env ([true], st) Line.endif = (if st.fatal then [true] else [], st) := by
  unfold step
  cases st.fatal <;> simp

theorem include_of_undefined (env : SearchPath) (st : PPState)
    (hf : st.fatal = false)
    (h : st.isDefined MetalTensorHarness_Bridging_Header_h = false) :
    includeBridgingHeader env st =
      importLine env ggmlPath (importLine env llamaPath
        { st with table := (MetalTensorHarness_Bridging_Header_h, "") :: st.table }) := by
  have hl : st.table.lookup MetalTensorHarness_Bridging_Header_h = none := by
    simpa [PPState.isDefined, definedIn] using h
  have hd : doDefine MetalTensorHarness_Bridging_Header_h "" st =
      { st with table := (MetalTensorHarness_Bridging_Header_h, "") :: st.table } := by
    simp [doDefine, hl]
  unfold includeBridgingHeader runFile bridgingHeader
  simp only [List.foldl_cons, List.foldl_nil, step_comment, step_blank,
    step_ifndef env st _ hf h, step_define env st _ _ hf, hd, step_import, step_endif]
  cases (importLine env ggmlPath (importLine env llamaPath
      { st with table := (MetalTensorHarness_Bridging_Header_h, "") :: st.table })).fatal <;>
    simp

/-- Definedness after one more binding at the front of a macro table. -/
theorem definedIn_cons (p : String × String) (tbl : List (String × String)) (n : String) :
    definedIn (p :: tbl) n = (n == p.1 || definedIn tbl n) := by
  obtain ⟨k, b⟩ := p
  unfold definedIn
  rw [List.lookup_cons]
  cases h : n == k <;> simp

/-- Definedness after a name was dropped from a macro table. -/
theorem definedIn_dropDef (m : String) (tbl : List (String × String)) (n : String) :
    definedIn (dropDef m tbl) n = (n != m && definedIn tbl n) := by
  induction tbl with
  | nil => simp [dropDef, definedIn]
  | cons p tbl ih =>
    unfold dropDef at ih ⊢
    rw [List.filter_cons]
    by_cases hp : p.1 = m
    · have hne : (p.1 != m) = false := by simp [hp]
      rw [hne]
      simp only [Bool.false_eq_true, if_false]
      rw [ih, definedIn_cons, hp]
      cases hn : (n == m) <;> simp [bne, hn]
    · have hne : (p.1 != m) = true := by simp [hp]
      rw [hne]
      simp only [if_true]
      rw [definedIn_cons, definedIn_cons, ih]
      cases hn : (n == m)
      · simp [bne, hn]
      · have hnm : n = m := by simpa using hn
        have hnp : (n == p.1) = false := by
          rw [beq_eq_false_iff_ne, hnm]
          exact fun e => hp e.symm
        simp [bne, hn, hnp]

/-- Definedness after a binding replaced what was there. -/
theorem definedIn_bindDef (tbl : List (String × String)) (p : String × String) (n : String) :
    definedIn (bindDef tbl p) n = (n == p.1 || definedIn tbl n) := by
  unfold bindDef
  rw [definedIn_cons, definedIn_dropDef]
  cases hn : (n == p.1) <;> simp [bne, hn]

/-- `#define` touches only the macro table and the diagnostics. -/
theorem doDefine_frame (n b : String) (st : PPState) :
    (doDefine n b st).decls = st.decls ∧ (doDefine n b st).entered = st.entered ∧
    (doDefine n b st).requests = st.requests ∧ (doDefine n b st).fatal = st.fatal := by
  unfold doDefine
  split
  · simp
  · split <;> simp

/-- `#define` raises nothing but a redefinition of its name. -/
theorem doDefine_diags (n b : String) (st : PPState) :
    ∃ new, (doDefine n b st).diags = st.diags ++ new ∧ ∀ d ∈ new, d = Diag.redefined n := by
  unfold doDefine
  split
  · exact ⟨[], by simp⟩
  · split
    · exact ⟨[], by simp⟩
    · exact ⟨[Diag.redefined n], by simp⟩

/-- After `#define n`, the names defined are `n` and those defined before. -/
theorem doDefine_isDefined (n b : String) (st : PPState) (m : String) :
    (doDefine n b st).isDefined m = (m == n || st.isDefined m) := by
  unfold doDefine PPState.isDefined
  split
  · simp [definedIn_cons]
  · rename_i old hold
    have hn : definedIn st.table n = true := by simp [definedIn, hold]
    split
    · cases hm : (m == n)
      · simp
      · have : m = n := by simpa using hm
        simp [this, hn]
    · simp [definedIn_bindDef]

/-- An item touches neither the look-ups nor the files entered. -/
theorem runItem_frame (st : PPState) (it : Item) :
    (runItem st it).requests = st.requests ∧ (runItem st it).entered = st.entered := by
  unfold runItem
  split
  · simp
  · cases it <;> simp [applyItem, doDefine_frame, PPState.raise, PPState.abort]

/-- A fatal error stays. -/
theorem runItem_fatal (st : PPState) (it : Item) (h : st.fatal = true) :
    runItem st it = st := by
  simp [runItem, h]

/-- An item that is no unresolved include raises no fatal error. -/
theorem runItem_not_fatal (st : PPState) (it : Item) (h : st.fatal = false)
    (hit : it.isMissing = false) : (runItem st it).fatal = false := by
  unfold runItem
  rw [h]
  cases it <;> simp_all [applyItem, doDefine_frame, PPState.raise, Item.isMissing]

/-- Declarations after an item: those before, and its own if it is a declaration. -/
theorem runItem_decls (st : PPState) (it : Item) :
    ∃ added, (runItem st it).decls = st.decls ++ added ∧
      (∀ d ∈ added, d ∈ declsOf [it]) ∧ (st.fatal = false → added = declsOf [it]) := by
  unfold runItem
  cases hf : st.fatal
  · cases it <;>
      simp [applyItem, doDefine_frame, PPState.raise, PPState.abort, declsOf]
  · exact ⟨[], by simp⟩

/-- Diagnostics after an item: those before and at most the one it can raise. -/
theorem runItem_diags (st : PPState) (it : Item) :
    ∃ new, (runItem st it).diags = st.diags ++ new ∧ ∀ d ∈ new, d ∈ raisableOf [it] := by
  unfold runItem
  cases hf : st.fatal
  · cases it with
    | define n b =>
      obtain ⟨new, h1, h2⟩ := doDefine_diags n b st
      exact ⟨new, by simpa [applyItem] using h1, by simpa [raisableOf] using h2⟩
    | decl d => exact ⟨[], by simp [applyItem]⟩
    | error m => exact ⟨[Diag.userError m], by simp [applyItem, PPState.raise, raisableOf]⟩
    | missing p => exact ⟨[Diag.fileNotFound p], by simp [applyItem, PPState.abort, raisableOf]⟩
  · exact ⟨[], by simp⟩

/-- An item keeps every macro name defined. -/
theorem runItem_isDefined_mono (st : PPState) (it : Item) (m : String)
    (h : st.isDefined m = true) : (runItem st it).isDefined m = true := by
  unfold runItem
  split
  · exact h
  · cases it with
    | define n b => simp [applyItem, doDefine_isDefined, h]
    | decl d => simpa [applyItem, PPState.isDefined] using h
    | error e => simpa [applyItem, PPState.isDefined, PPState.raise] using h
    | missing p => simpa [applyItem, PPState.isDefined, PPState.abort] using h

/-- A name defined after an item was defined before or is defined by the item. -/
theorem runItem_isDefined_source (st : PPState) (it : Item) (m : String)
    (h : (runItem st it).isDefined m = true) :
    st.isDefined m = true ∨ m ∈ namesOf [it] := by
  unfold runItem at h
  split at h
  · exact Or.inl h
  · cases it with
    | define n b =>
      rw [applyItem, doDefine_isDefined] at h
      simp only [Bool.or_eq_true, beq_iff_eq] at h
      rcases h with h | h
      · exact Or.inr (by simp [namesOf, h])
      · exact Or.inl h
    | decl d => exact Or.inl (by simpa [applyItem, PPState.isDefined] using h)
    | error e => exact Or.inl (by simpa [applyItem, PPState.isDefined, PPState.raise] using h)
    | missing p => exact Or.inl (by simpa [applyItem, PPState.isDefined, PPState.abort] using h)

/-- Without a fatal error, a definition item leaves its name defined. -/
theorem runItem_defines (st : PPState) (it : Item) (m : String) (hf : st.fatal = false)
    (h : m ∈ namesOf [it]) : (runItem st it).isDefined m = true := by
  unfold runItem
  rw [hf]
  cases it with
  | define n b =>
    have : m = n := by simpa [namesOf] using h
    simp [applyItem, doDefine_isDefined, this]
  | decl d => simp [namesOf] at h
  | error e => simp [namesOf] at h
  | missing p => simp [namesOf] at h

theorem declsOf_cons (it : Item) (items : List Item) :
    declsOf (it :: items) = declsOf [it] ++ declsOf items := by
  cases it <;> simp [declsOf]

theorem namesOf_cons (it : Item) (items : List Item) :
    namesOf (it :: items) = namesOf [it] ++ namesOf items := by
  cases it <;> simp [namesOf]

theorem defsOf_cons (it : Item) (items : List Item) :
    defsOf (it :: items) = defsOf [it] ++ defsOf items := by
  cases it <;> simp [defsOf]

theorem raisableOf_cons (it : Item) (items : List Item) :
    raisableOf (it :: items) = raisableOf [it] ++ raisableOf items := by
  cases it <;> simp [raisableOf]

theorem runItems_cons (it : Item) (items : List Item) (st : PPState) :
    runItems (it :: items) st = runItems items (runItem st it) := rfl

/-- The contents of a header touch neither the look-ups nor the files entered. -/
theorem runItems_frame (items : List Item) (st : PPState) :
    (runItems items st).requests = st.requests ∧ (runItems items st).entered = st.entered := by
  induction items generalizing st with
  | nil => exact ⟨rfl, rfl⟩
  | cons it items ih =>
    rw [runItems_cons]
    exact ⟨(ih _).1.trans (runItem_frame st it).1, (ih _).2.trans (runItem_frame st it).2⟩

/-- Nothing is processed after a fatal error. -/
theorem runItems_fatal (items : List Item) (st : PPState) (h : st.fatal = true) :
    runItems items st = st := by
  induction items with
  | nil => rfl
  | cons it items ih => rw [runItems_cons, runItem_fatal st it h, ih]

/-- Contents without an unresolved include raise no fatal error. -/
theorem runItems_not_fatal (items : List Item) (st : PPState) (h : st.fatal = false)
    (hit : items.any Item.isMissing = false) : (runItems items st).fatal = false := by
  induction items generalizing st with
  | nil => exact h
  | cons it items ih =>
    rw [List.any_cons, Bool.or_eq_false_iff] at hit
    rw [runItems_cons]
    exact ih _ (runItem_not_fatal st it h hit.1) hit.2

/-- Declarations after the contents of a header: those before followed by declarations
of the header, all of them when nothing ended preprocessing. -/
theorem runItems_decls (items : List Item) (st : PPState) :
    ∃ added, (runItems items st).decls = st.decls ++ added ∧
      (∀ d ∈ added, d ∈ declsOf items) ∧
      (st.fatal = false → items.any Item.isMissing = false → added = declsOf items) := by
  induction items generalizing st with
  | nil => exact ⟨[], by simp [runItems, declsOf]⟩
  | cons it items ih =>
    obtain ⟨a1, h1, h1in, h1eq⟩ := runItem_decls st it
    obtain ⟨a2, h2, h2in, h2eq⟩ := ih (runItem st it)
    refine ⟨a1 ++ a2, ?_, ?_, ?_⟩
    · rw [runItems_cons, h2, h1, List.append_assoc]
    · intro d hd
      rw [declsOf_cons]
      rcases List.mem_append.mp hd with hd | hd
      · exact List.mem_append.mpr (Or.inl (h1in d hd))
      · exact List.mem_append.mpr (Or.inr (h2in d hd))
    · intro hf hm
      rw [List.any_cons, Bool.or_eq_false_iff] at hm
      rw [declsOf_cons, h1eq hf, h2eq (runItem_not_fatal st it hf hm.1) hm.2]

/-- Diagnostics after the contents of a header: those before followed by diagnostics
the contents can raise. -/
theorem runItems_diags (items : List Item) (st : PPState) :
    ∃ new, (runItems items st).diags = st.diags ++ new ∧ ∀ d ∈ new, d ∈ raisableOf items := by
  induction items generalizing st with
  | nil => exact ⟨[], by simp [runItems]⟩
  | cons it items ih =>
    obtain ⟨a1, h1, h1in⟩ := runItem_diags st it
    obtain ⟨a2, h2, h2in⟩ := ih (runItem st it)
    refine ⟨a1 ++ a2, ?_, ?_⟩
    · rw [runItems_cons, h2, h1, List.append_assoc]
    · intro d hd
      rw [raisableOf_cons]
      rcases List.mem_append.mp hd with hd | hd
      · exact List.mem_append.mpr (Or.inl (h1in d hd))
      · exact List.mem_append.mpr (Or.inr (h2in d hd))

/-- The contents of a header keep every macro name defined. -/
theorem runItems_isDefined_mono (items : List Item) (st : PPState) (m : String)
    (h : st.isDefined m = true) : (runItems items st).isDefined m = true := by
  induction items generalizing st with
  | nil => exact h
  | cons it items ih =>
    rw [runItems_cons]
    exact ih _ (runItem_isDefined_mono st it m h)

/-- A name defined after the contents of a header was defined before or is defined by
the header. -/
theorem runItems_isDefined_source (items : List Item) (st : PPState) (m : String)
    (h : (runItems items st).isDefined m = true) :
    st.isDefined m = true ∨ m ∈ namesOf items := by
  induction items generalizing st with
  | nil => exact Or.inl h
  | cons it items ih =>
    rw [runItems_cons] at h
    rw [namesOf_cons]
    rcases ih _ h with h1 | h1
    · rcases runItem_isDefined_source st it m h1 with h2 | h2
      · exact Or.inl h2
      · exact Or.inr (List.mem_append.mpr (Or.inl h2))
    · exact Or.inr (List.mem_append.mpr (Or.inr h1))

/-- When nothing ends preprocessing, every macro of the header is defined after its
contents. -/
theorem runItems_defines (items : List Item) (st : PPState) (m : String)
    (hf : st.fatal = false) (hm : items.any Item.isMissing = false)
    (h : m ∈ namesOf items) : (runItems items st).isDefined m = true := by
  induction items generalizing st with
  | nil => simp [namesOf] at h
  | cons it items ih =>
    rw [List.any_cons, Bool.or_eq_false_iff] at hm
    rw [runItems_cons]
    rw [namesOf_cons] at h
    rcases List.mem_append.mp h with h | h
    · exact runItems_isDefined_mono items _ m (runItem_defines st it m hf h)
    · exact ih _ (runItem_not_fatal st it hf hm.1) hm.2 h

/-- A definition that agrees with the macro table raises nothing and leaves the table in
agreement with every set of definitions it agreed with. -/
theorem doDefine_quiet (n b : String) (st : PPState) (defs : List (String × String))
    (hfun : Functional defs) (hag : Agrees st.table defs) (hmem : (n, b) ∈ defs) :
    (doDefine n b st).diags = st.diags ∧ Agrees (doDefine n b st).table defs := by
  unfold doDefine
  rcases hag (n, b) hmem with h | h
  · simp only [] at h
    rw [h]
    refine ⟨rfl, ?_⟩
    intro p hp
    simp only [List.lookup_cons]
    cases hpn : (p.1 == n)
    · exact hag p hp
    · have hpn2 : p.1 = n := by simpa using hpn
      exact Or.inr (by rw [hfun p hp (n, b) hmem hpn2])
  · simp only [] at h
    rw [h]
    simpa using hag

/-- Contents without `#error` or unresolved include whose definitions agree with the
macro table raise nothing. -/
theorem runItems_quiet (items : List Item) (st : PPState) (defs : List (String × String))
    (hfun : Functional defs) (hag : Agrees st.table defs)
    (hsub : ∀ p ∈ defsOf items, p ∈ defs) (hok : items.any Item.isFailure = false) :
    (runItems items st).diags = st.diags ∧ (runItems items st).fatal = st.fatal ∧
      Agrees (runItems items st).table defs := by
  induction items generalizing st with
  | nil => exact ⟨rfl, rfl, hag⟩
  | cons it items ih =>
    rw [List.any_cons, Bool.or_eq_false_iff] at hok
    have hsub2 : ∀ p ∈ defsOf items, p ∈ defs := by
      intro p hp
      apply hsub
      rw [defsOf_cons]
      exact List.mem_append.mpr (Or.inr hp)
    have hstep : (runItem st it).diags = st.diags ∧ (runItem st it).fatal = st.fatal ∧
        Agrees (runItem st it).table defs := by
      unfold runItem
      by_cases hf : st.fatal = true
      · simpa [hf] using hag
      · cases it with
        | define n b =>
          have hmem : (n, b) ∈ defs := hsub (n, b) (by simp [defsOf])
          have := doDefine_quiet n b st defs hfun hag hmem
          have hf2 : st.fatal = false := by simpa using hf
          simp only [hf2, Bool.false_eq_true, if_false, applyItem]
          exact ⟨this.1, (doDefine_frame n b st).2.2.2.trans hf2, this.2⟩
        | decl d => simpa [hf, applyItem] using hag
        | error e => simp [Item.isFailure] at hok
        | missing p => simp [Item.isFailure] at hok
    rw [runItems_cons]
    obtain ⟨h1, h2, h3⟩ := ih (runItem st it) hstep.2.2 hsub2 hok.2
    exact ⟨h1.trans hstep.1, h2.trans hstep.2.1, h3⟩

/-- The four ways an `#import` line can go: skipped after a fatal error, path
unresolved, file entered before, or file entered now. -/
theorem importLine_cases (env : SearchPath) (path : String) (st : PPState) :
    (st.fatal = true ∧ importLine env path st = st) ∨
    (st.fatal = false ∧ env path = none ∧ importLine env path st =
      { st with requests := st.requests ++ [path],
                diags := st.diags ++ [Diag.fileNotFound path], fatal := true }) ∨
    (st.fatal = false ∧ ∃ h, env path = some h ∧ h.file ∈ st.entered ∧
      importLine env path st = { st with requests := st.requests ++ [path] }) ∨
    (st.fatal = false ∧ ∃ h, env path = some h ∧ h.file ∉ st.entered ∧
      importLine env path st = runItems h.items
        { st with requests := st.requests ++ [path], entered := st.entered ++ [h.file] }) := by
  unfold importLine
  by_cases hf : st.fatal = true
  · left; simp [hf]
  · right
    have hf2 : st.fatal = false := by simpa using hf
    cases he : env path with
    | none => left; simp [doImport, doInclude, he, PPState.abort, hf2]
    | some h =>
      right
      by_cases hm : h.file ∈ st.entered
      · left; exact ⟨hf2, h, rfl, hm, by simp [doImport, doInclude, he, hm, hf2]⟩
      · right; exact ⟨hf2, h, rfl, hm, by simp [doImport, doInclude, he, hm, enterHeader, hf2]⟩

/-- Look-ups after an `#import` line: one more, unless a fatal error came before. -/
theorem importLine_requests (env : SearchPath) (path : String) (st : PPState) :
    (importLine env path st).requests =
      if st.fatal then st.requests else st.requests ++ [path] := by
  rcases importLine_cases env path st with ⟨hf, h⟩ | ⟨hf, _, h⟩ | ⟨hf, _, _, _, h⟩ |
      ⟨hf, hd, _, _, h⟩
  · simp [h, hf]
  · simp [h, hf]
  · simp [h, hf]
  · rw [h, (runItems_frame _ _).1]; simp [hf]

/-- An `#import` line whose path resolves to contents without an unresolved include
raises no fatal error. -/
theorem importLine_not_fatal (env : SearchPath) (path : String) (st : PPState) (hdr : Header)
    (hf : st.fatal = false) (hres : env path = some hdr) (hh : hdr.halts = false) :
    (importLine env path st).fatal = false := by
  rcases importLine_cases env path st with ⟨hf2, _⟩ | ⟨_, he, _⟩ | ⟨_, _, _, _, h⟩ |
      ⟨_, hd, he, _, h⟩
  · rw [hf] at hf2; cases hf2
  · rw [hres] at he; cases he
  · rw [h]; exact hf
  · rw [hres] at he
    cases he
    rw [h]
    exact runItems_not_fatal _ _ hf hh

/-- An `#import` line whose path does not resolve is a fatal error. -/
theorem importLine_unresolved (env : SearchPath) (path : String) (st : PPState)
    (hres : env path = none) : (importLine env path st).fatal = true := by
  rcases importLine_cases env path st with ⟨hf, h⟩ | ⟨_, _, h⟩ | ⟨_, _, he, _⟩ | ⟨_, _, he, _⟩
  · rw [h]; exact hf
  · rw [h]
  · rw [hres] at he; cases he
  · rw [hres] at he; cases he

/-- Declarations after an `#import` line: those before followed by declarations of the
header the path resolves to. -/
theorem importLine_decls (env : SearchPath) (path : String) (st : PPState) :
    ∃ added, (importLine env path st).decls = st.decls ++ added ∧
      ∀ d ∈ added, ∃ h, env path = some h ∧ d ∈ h.decls := by
  rcases importLine_cases env path st with ⟨_, h⟩ | ⟨_, _, h⟩ | ⟨_, _, _, _, h⟩ |
      ⟨_, hd, he, _, h⟩
  · exact ⟨[], by simp [h]⟩
  · exact ⟨[], by simp [h]⟩
  · exact ⟨[], by simp [h]⟩
  · obtain ⟨added, h1, h2, _⟩ := runItems_decls hd.items
      { st with requests := st.requests ++ [path], entered := st.entered ++ [hd.file] }
    exact ⟨added, by rw [h, h1], fun d hmem => ⟨hd, he, h2 d hmem⟩⟩

/-- Diagnostics after an `#import` line: those before followed by the file-not-found of
an unresolved path or by diagnostics the resolved header can raise. -/
theorem importLine_diags (env : SearchPath) (path : String) (st : PPState) :
    ∃ new, (importLine env path st).diags = st.diags ++ new ∧
      ∀ d ∈ new, (d = Diag.fileNotFound path ∧ env path = none) ∨
        ∃ h, env path = some h ∧ d ∈ h.raisable := by
  rcases importLine_cases env path st with ⟨_, h⟩ | ⟨_, he, h⟩ | ⟨_, _, _, _, h⟩ |
      ⟨_, hd, he, _, h⟩
  · exact ⟨[], by simp [h]⟩
  · exact ⟨[Diag.fileNotFound path], by simp [h, he]⟩
  · exact ⟨[], by simp [h]⟩
  · obtain ⟨new, h1, h2⟩ := runItems_diags hd.items
      { st with requests := st.requests ++ [path], entered := st.entered ++ [hd.file] }
    exact ⟨new, by rw [h, h1], fun d hmem => Or.inr ⟨hd, he, h2 d hmem⟩⟩

/-- An `#import` line keeps every macro name defined. -/
theorem importLine_isDefined_mono (env : SearchPath) (path : String) (st : PPState)
    (m : String) (hm : st.isDefined m = true) : (importLine env path st).isDefined m = true := by
  rcases importLine_cases env path st with ⟨_, h⟩ | ⟨_, _, h⟩ | ⟨_, _, _, _, h⟩ |
      ⟨_, hd, _, _, h⟩
  · rw [h]; exact hm
  · rw [h]; exact hm
  · rw [h]; exact hm
  · rw [h]; exact runItems_isDefined_mono _ _ m hm

/-- A name defined after an `#import` line was defined before or is defined by the
header the path resolves to. -/
theorem importLine_isDefined_source (env : SearchPath) (path : String) (st : PPState)
    (m : String) (hm : (importLine env path st).isDefined m = true) :
    st.isDefined m = true ∨ ∃ h, env path = some h ∧ m ∈ h.names := by
  rcases importLine_cases env path st with ⟨_, h⟩ | ⟨_, _, h⟩ | ⟨_, _, _, _, h⟩ |
      ⟨_, hd, he, _, h⟩
  · rw [h] at hm; exact Or.inl hm
  · rw [h] at hm; exact Or.inl hm
  · rw [h] at hm; exact Or.inl hm
  · rw [h] at hm
    rcases runItems_isDefined_source _ _ m hm with h1 | h1
    · exact Or.inl h1
    · exact Or.inr ⟨hd, he, h1⟩

/-- An `#import` line that enters a file not entered before, with no unresolved include
inside: all its declarations are added, all its macros are defined, the file is
recorded. -/
theorem importLine_enters (env : SearchPath) (path : String) (st : PPState) (hdr : Header)
    (hf : st.fatal = false) (hres : env path = some hdr) (hnew : hdr.file ∉ st.entered)
    (hh : hdr.halts = false) :
    (importLine env path st).decls = st.decls ++ hdr.decls ∧
    (∀ m ∈ hdr.names, (importLine env path st).isDefined m = true) ∧
    (importLine env path st).entered = st.entered ++ [hdr.file] := by
  rcases importLine_cases env path st with ⟨hf2, _⟩ | ⟨_, he, _⟩ | ⟨_, hd, he, hin, _⟩ |
      ⟨_, hd, he, _, h⟩
  · rw [hf] at hf2; cases hf2
  · rw [hres] at he; cases he
  · rw [hres] at he; cases he; exact absurd hin hnew
  · rw [hres] at he
    cases he
    rw [h]
    obtain ⟨added, h1, _, h3⟩ := runItems_decls hdr.items
      { st with requests := st.requests ++ [path], entered := st.entered ++ [hdr.file] }
    refine ⟨?_, ?_, ?_⟩
    · rw [h1, h3 hf hh]; rfl
    · intro m hm
      exact runItems_defines _ _ m hf hh hm
    · rw [(runItems_frame _ _).2]

/-- An `#import` line raises nothing when its header has no `#error` and no unresolved
include and the macros of the header agree with the macro table. -/
theorem importLine_quiet (env : SearchPath) (path : String) (st : PPState) (hdr : Header)
    (defs : List (String × String)) (hres : env path = some hdr) (hok : hdr.fails = false)
    (hfun : Functional defs) (hag : Agrees st.table defs) (hsub : ∀ p ∈ hdr.defs, p ∈ defs) :
    (importLine env path st).diags = st.diags ∧ (importLine env path st).fatal = st.fatal ∧
      Agrees (importLine env path st).table defs := by
  rcases importLine_cases env path st with ⟨_, h⟩ | ⟨_, he, _⟩ | ⟨_, _, _, _, h⟩ |
      ⟨_, hd, he, _, h⟩
  · rw [h]; exact ⟨rfl, rfl, hag⟩
  · rw [hres] at he; cases he
  · rw [h]; exact ⟨rfl, rfl, hag⟩
  · rw [hres] at he
    cases he
    rw [h]
    exact runItems_quiet hdr.items _ defs hfun hag hsub hok

/-! ## One inclusion of the bridging header -/

/-- An inclusion either leaves the state alone (a fatal error came before, or the guard
is defined) or binds the guard and runs the two `#import` lines. -/
theorem include_cases (env : SearchPath) (st : PPState) :
    ((st.fatal = true ∨ st.isDefined MetalTensorHarness_Bridging_Header_h = true) ∧
      includeBridgingHeader env st = st) ∨
    (st.fatal = false ∧ st.isDefined MetalTensorHarness_Bridging_Header_h = false ∧
      includeBridgingHeader env st =
        importLine env ggmlPath (importLine env llamaPath
          { st with table := (MetalTensorHarness_Bridging_Header_h, "") :: st.table })) := by
  by_cases hf : st.fatal = true
  · exact Or.inl ⟨Or.inl hf, include_of_fatal env st hf⟩
  · by_cases hg : st.isDefined MetalTensorHarness_Bridging_Header_h = true
    · exact Or.inl ⟨Or.inr hg, include_of_defined env st hg⟩
    · have hf2 : st.fatal = false := by simpa using hf
      have hg2 : st.isDefined MetalTensorHarness_Bridging_Header_h = false := by simpa using hg
      exact Or.inr ⟨hf2, hg2, include_of_undefined env st hf2 hg2⟩

/-- The guard is defined once it is bound at the front of the macro table. -/
theorem guard_bound (st : PPState) :
    PPState.isDefined { st with table := (MetalTensorHarness_Bridging_Header_h, "") :: st.table }
      MetalTensorHarness_Bridging_Header_h = true := by
  simp [PPState.isDefined, definedIn_cons]

/-- Binding the guard keeps every macro name defined. -/
theorem guard_bound_mono (st : PPState) (m : String) (h : st.isDefined m = true) :
    PPState.isDefined { st with table := (MetalTensorHarness_Bridging_Header_h, "") :: st.table }
      m = true := by
  unfold PPState.isDefined at h ⊢
  simp [definedIn_cons, h]

/-- An inclusion leaves the state it produced alone. -/
theorem include_fixed (env : SearchPath) (st : PPState) :
    includeBridgingHeader env (includeBridgingHeader env st) = includeBridgingHeader env st := by
  rcases include_cases env st with ⟨_, h⟩ | ⟨_, _, h⟩
  · rw [h, h]
  · apply include_of_defined
    rw [h]
    exact importLine_isDefined_mono _ _ _ _ (importLine_isDefined_mono _ _ _ _ (guard_bound st))

/-- A state the inclusion leaves alone raises no diagnostic and sends no look-up. -/
theorem nothing_raised_of_fixed (env : SearchPath) (st : PPState)
    (h : includeBridgingHeader env st = st) :
    diagsRaised env st = [] ∧ requestsMade env st = [] := by
  simp [diagsRaised, requestsMade, h]

/-- Look-ups of an inclusion that runs the `#import` lines. -/
theorem include_requests (env : SearchPath) (st : PPState) (hf : st.fatal = false)
    (hg : st.isDefined MetalTensorHarness_Bridging_Header_h = false) :
    requestsMade env st =
      if (importLine env llamaPath
          { st with table := (MetalTensorHarness_Bridging_Header_h, "") :: st.table }).fatal
      then [llamaPath] else [llamaPath, ggmlPath] := by
  unfold requestsMade
  rw [include_of_undefined env st hf hg, importLine_requests, importLine_requests]
  simp only [hf, Bool.false_eq_true, if_false]
  split <;> simp

/-- Declarations after an inclusion: those before followed by declarations of the
headers the two paths resolve to. -/
theorem include_decls (env : SearchPath) (st : PPState) :
    ∃ added, (includeBridgingHeader env st).decls = st.decls ++ added ∧
      ∀ d ∈ added, (∃ h, env llamaPath = some h ∧ d ∈ h.decls) ∨
        (∃ h, env ggmlPath = some h ∧ d ∈ h.decls) := by
  rcases include_cases env st with ⟨_, h⟩ | ⟨_, _, h⟩
  · exact ⟨[], by simp [h]⟩
  · obtain ⟨a1, h1, h1in⟩ := importLine_decls env llamaPath
      { st with table := (MetalTensorHarness_Bridging_Header_h, "") :: st.table }
    obtain ⟨a2, h2, h2in⟩ := importLine_decls env ggmlPath (importLine env llamaPath
      { st with table := (MetalTensorHarness_Bridging_Header_h, "") :: st.table })
    refine ⟨a1 ++ a2, ?_, ?_⟩
    · rw [h, h2, h1, List.append_assoc]
    · intro d hd
      rcases List.mem_append.mp hd with hd | hd
      · exact Or.inl (h1in d hd)
      · exact Or.inr (h2in d hd)

/-- Diagnostics after an inclusion: those before followed by file-not-found of an
unresolved import or by diagnostics a resolved header can raise. -/
theorem include_diags (env : SearchPath) (st : PPState) :
    ∃ new, (includeBridgingHeader env st).diags = st.diags ++ new ∧
      ∀ d ∈ new,
        (d = Diag.fileNotFound llamaPath ∧ env llamaPath = none) ∨
        (d = Diag.fileNotFound ggmlPath ∧ env ggmlPath = none) ∨
        (∃ h, env llamaPath = some h ∧ d ∈ h.raisable) ∨
        (∃ h, env ggmlPath = some h ∧ d ∈ h.raisable) := by
  rcases include_cases env st with ⟨_, h⟩ | ⟨_, _, h⟩
  · exact ⟨[], by simp [h]⟩
  · obtain ⟨a1, h1, h1in⟩ := importLine_diags env llamaPath
      { st with table := (MetalTensorHarness_Bridging_Header_h, "") :: st.table }
    obtain ⟨a2, h2, h2in⟩ := importLine_diags env ggmlPath (importLine env llamaPath
      { st with table := (MetalTensorHarness_Bridging_Header_h, "") :: st.table })
    refine ⟨a1 ++ a2, ?_, ?_⟩
    · rw [h, h2, h1, List.append_assoc]
    · intro d hd
      rcases List.mem_append.mp hd with hd | hd
      · rcases h1in d hd with h3 | h3
        · exact Or.inl h3
        · exact Or.inr (Or.inr (Or.inl h3))
      · rcases h2in d hd with h3 | h3
        · exact Or.inr (Or.inl h3)
        · exact Or.inr (Or.inr (Or.inr h3))

/-- An inclusion keeps every macro name defined. -/
theorem include_isDefined_mono (env : SearchPath) (st : PPState) (m : String)
    (hm : st.isDefined m = true) : (includeBridgingHeader env st).isDefined m = true := by
  rcases include_cases env st with ⟨_, h⟩ | ⟨_, _, h⟩
  · rw [h]; exact hm
  · rw [h]
    exact importLine_isDefined_mono _ _ _ _
      (importLine_isDefined_mono _ _ _ _ (guard_bound_mono st m hm))

/-- A name defined after an inclusion was defined before, is the guard, or is defined by
a header one of the two paths resolves to. -/
theorem include_isDefined_source (env : SearchPath) (st : PPState) (m : String)
    (hm : (includeBridgingHeader env st).isDefined m = true) :
    st.isDefined m = true ∨ m = MetalTensorHarness_Bridging_Header_h ∨
      (∃ h, env llamaPath = some h ∧ m ∈ h.names) ∨
      (∃ h, env ggmlPath = some h ∧ m ∈ h.names) := by
  rcases include_cases env st with ⟨_, h⟩ | ⟨_, _, h⟩
  · rw [h] at hm; exact Or.inl hm
  · rw [h] at hm
    rcases importLine_isDefined_source _ _ _ _ hm with h1 | h1
    · rcases importLine_isDefined_source _ _ _ _ h1 with h2 | h2
      · unfold PPState.isDefined at h2
        simp only [definedIn_cons, Bool.or_eq_true, beq_iff_eq] at h2
        rcases h2 with h3 | h3
        · exact Or.inr (Or.inl h3)
        · exact Or.inl h3
      · exact Or.inr (Or.inr (Or.inl h2))
    · exact Or.inr (Or.inr (Or.inr h1))

/-- Symbols visible before an inclusion are visible after it. -/
theorem visible_preserved (env : SearchPath) (st : PPState) (hdr : Header)
    (hvis : AllVisible hdr st) : AllVisible hdr (includeBridgingHeader env st) := by
  constructor
  · intro d hd
    obtain ⟨added, h1, _⟩ := include_decls env st
    rw [h1]
    exact List.mem_append.mpr (Or.inl (hvis.1 d hd))
  · intro n hn
    exact include_isDefined_mono env st n (hvis.2 n hn)

/-- An inclusion that enters both headers anew, neither with an unresolved include
inside: the declarations of both are appended and all their macros are defined. -/
theorem include_enters_both (env : SearchPath) (st : PPState) (hL hG : Header)
    (hf : st.fatal = false)
    (hg : st.isDefined MetalTensorHarness_Bridging_Header_h = false)
    (hresL : env llamaPath = some hL) (hresG : env ggmlPath = some hG)
    (hnewL : hL.file ∉ st.entered) (hnewG : hG.file ∉ st.entered)
    (hdiff : hL.file ≠ hG.file) (hhL : hL.halts = false) (hhG : hG.halts = false) :
    (includeBridgingHeader env st).decls = st.decls ++ hL.decls ++ hG.decls ∧
    (∀ m ∈ hL.names, (includeBridgingHeader env st).isDefined m = true) ∧
    (∀ m ∈ hG.names, (includeBridgingHeader env st).isDefined m = true) := by
  rw [include_of_undefined env st hf hg]
  have e1 := importLine_enters env llamaPath
    { st with table := (MetalTensorHarness_Bridging_Header_h, "") :: st.table } hL hf hresL
    hnewL hhL
  have hf2 := importLine_not_fatal env llamaPath
    { st with table := (MetalTensorHarness_Bridging_Header_h, "") :: st.table } hL hf hresL hhL
  have hnewG2 : hG.file ∉ (importLine env llamaPath
      { st with table := (MetalTensorHarness_Bridging_Header_h, "") :: st.table }).entered := by
    rw [e1.2.2]
    intro hmem
    rcases List.mem_append.mp hmem with h1 | h1
    · exact hnewG h1
    · have h2 : hG.file = hL.file := by simpa using h1
      exact hdiff h2.symm
  have e2 := importLine_enters env ggmlPath _ hG hf2 hresG hnewG2 hhG
  refine ⟨?_, ?_, e2.2.1⟩
  · rw [e2.1, e1.1]
  · intro m hm
    exact importLine_isDefined_mono _ _ _ _ (e1.2.1 m hm)

/-! ## The claims -/

/-- C1: including the bridging header is idempotent. For every search path and every
preprocessor state, a second inclusion right after the first leaves the macro table and
the visible declarations as the first left them; any number of further inclusions yields
the state of the first; and a later inclusion raises no diagnostic (so no redefinition)
and sends no look-up. -/
theorem include_idempotent (env : SearchPath) (st : PPState) :
    (includeBridgingHeader env (includeBridgingHeader env st)).table
        = (includeBridgingHeader env st).table ∧
    (includeBridgingHeader env (includeBridgingHeader env st)).decls
        = (includeBridgingHeader env st).decls ∧
    (∀ n : Nat, Nat.iterate (includeBridgingHeader env) (n + 1) st
        = includeBridgingHeader env st) ∧
    diagsRaised env (includeBridgingHeader env st) = [] ∧
    requestsMade env (includeBridgingHeader env st) = [] := by
  have hfix := include_fixed env st
  refine ⟨by rw [hfix], by rw [hfix], ?_, (nothing_raised_of_fixed env _ hfix).1,
    (nothing_raised_of_fixed env _ hfix).2⟩
  intro n
  rw [Function.iterate_succ_apply]
  exact Function.iterate_fixed hfix n

/-- A file the translation unit imported itself, under whatever spelling, is not entered
again by the `#import` of the bridging header: a macro of `llama/llama.h` that was
undefined since stays undefined after the inclusion, although the guard was not yet
bound. -/
theorem reimport_restores_nothing :
    (llamaImportedThenUndef sampleSearchPath).isDefined
        MetalTensorHarness_Bridging_Header_h = false ∧
    sampleSearchPath "llama/llama.h" = some sampleLlama ∧
    ¬ AllVisible sampleLlama
        (includeBridgingHeader sampleSearchPath (llamaImportedThenUndef sampleSearchPath)) := by
  decide

/-- A header with an unresolved include inside ends preprocessing: what follows the
include in `llama/llama.h`, and all of `llama/ggml.h`, stays invisible although both
paths resolve. -/
theorem broken_header_hides_symbols :
    brokenSearchPath "llama/llama.h" = some brokenLlama ∧
    brokenSearchPath "llama/ggml.h" = some sampleGgml ∧
    ¬ AllVisible brokenLlama (includeBridgingHeader brokenSearchPath PPState.initial) ∧
    ¬ AllVisible sampleGgml (includeBridgingHeader brokenSearchPath PPState.initial) := by
  decide

/-- When `llama/llama.h` does not resolve, the fatal error ends preprocessing before
`llama/ggml.h` is entered: its symbols stay invisible although its path resolves. -/
theorem unresolved_llama_hides_ggml :
    ggmlOnlySearchPath "llama/llama.h" = none ∧
    ggmlOnlySearchPath "llama/ggml.h" = some sampleGgml ∧
    ¬ AllVisible sampleGgml (includeBridgingHeader ggmlOnlySearchPath PPState.initial) ∧
    (includeBridgingHeader ggmlOnlySearchPath PPState.initial).decls = [] := by
  decide

/-- C5: the header adds nothing of its own beyond the guard and the two imports. After an
inclusion where the guard was not defined, the visible declarations are those visible
before followed by declarations of the headers the two paths resolve to, and by all of
them, in order, when both files are entered anew without a fatal error; a macro name
that is defined afterwards was defined before, is the guard, or comes from one of the
two headers, and no name that was defined before is lost; the only macro the text of the file defines
is the guard; and the text of the file makes no declaration. -/
theorem first_inclusion_frame (env : SearchPath) (st : PPState)
    (h : st.isDefined MetalTensorHarness_Bridging_Header_h = false) :
    (∃ added, (includeBridgingHeader env st).decls = st.decls ++ added ∧
      ∀ d ∈ added, (∃ hdr, env "llama/llama.h" = some hdr ∧ d ∈ hdr.decls) ∨
        (∃ hdr, env "llama/ggml.h" = some hdr ∧ d ∈ hdr.decls)) ∧
    (∀ hL hG, st.fatal = false →
      env "llama/llama.h" = some hL → env "llama/ggml.h" = some hG →
      hL.file ∉ st.entered → hG.file ∉ st.entered → hL.file ≠ hG.file →
      hL.halts = false → hG.halts = false →
      (includeBridgingHeader env st).decls = st.decls ++ hL.decls ++ hG.decls) ∧
    (∀ n, (includeBridgingHeader env st).isDefined n = true →
      st.isDefined n = true ∨ n = "MetalTensorHarness_Bridging_Header_h" ∨
      (∃ hdr, env "llama/llama.h" = some hdr ∧ n ∈ hdr.names) ∨
      (∃ hdr, env "llama/ggml.h" = some hdr ∧ n ∈ hdr.names)) ∧
    (∀ n, st.isDefined n = true → (includeBridgingHeader env st).isDefined n = true) ∧
    ownDefines bridgingHeader = ["MetalTensorHarness_Bridging_Header_h"] ∧
    ownDecls bridgingHeader = [] := by
  refine ⟨include_decls env st, ?_, include_isDefined_source env st,
    include_isDefined_mono env st, by decide, by decide⟩
  intro hL hG hf hresL hresG hnewL hnewG hdiff hhL hhG
  exact (include_enters_both env st hL hG hf h hresL hresG hnewL hnewG hdiff hhL hhG).1

/-- C5 at the start of a translation unit with both imports resolving. -/
theorem first_inclusion_frame_witness :
    PPState.initial.isDefined MetalTensorHarness_Bridging_Header_h = false ∧
    (includeBridgingHeader sampleSearchPath PPState.initial).decls =
      PPState.initial.decls ++ sampleLlama.decls ++ sampleGgml.decls :=
  ⟨by decide,
    (first_inclusion_frame sampleSearchPath PPState.initial (by decide)).2.1
      sampleLlama sampleGgml rfl (by decide) (by decide) (by decide) (by decide) (by decide)
      (by decide) (by decide)⟩

/-- C6: when the guard is already defined, by an earlier inclusion or by any other
definition of the name, the inclusion leaves the whole preprocessor state unchanged,
sends no look-up for either header and raises no diagnostic, on every search path,
also one that resolves neither path. -/
theorem guarded_inclusion_unchanged (env : SearchPath) (st : PPState)
    (h : st.isDefined MetalTensorHarness_Bridging_Header_h = true) :
    includeBridgingHeader env st = st ∧
    requestsMade env st = [] ∧
    diagsRaised env st = [] := by
  have hfix := include_of_defined env st h
  exact ⟨hfix, (nothing_raised_of_fixed env st hfix).2, (nothing_raised_of_fixed env st hfix).1⟩

/-- C6 for a translation unit that defined the guard name itself, on a search path where
neither header resolves. -/
theorem guarded_inclusion_unchanged_witness :
    (guardPredefined emptySearchPath).isDefined MetalTensorHarness_Bridging_Header_h = true ∧
    emptySearchPath "llama/llama.h" = none ∧ emptySearchPath "llama/ggml.h" = none ∧
    includeBridgingHeader emptySearchPath (guardPredefined emptySearchPath)
      = guardPredefined emptySearchPath ∧
    requestsMade emptySearchPath (guardPredefined emptySearchPath) = [] ∧
    diagsRaised emptySearchPath (guardPredefined emptySearchPath) = [] :=
  ⟨by decide, rfl, rfl,
    guarded_inclusion_unchanged emptySearchPath (guardPredefined emptySearchPath) (by decide)⟩

end MetalTensorHarness
